import Mathlib

/-!
Verification of the legislative-calendar generator
(`generate_2026_calendars.py`).

Dates are modelled as proleptic-Gregorian day ordinals, exactly as
the Python `date.toordinal()` function: day 1 is 0001-01-01, which is a Monday, and
`date.weekday()` (0 = Monday .. 6 = Sunday) equals `(ordinal + 6) % 7`.
The static configuration stores dates as `YYYY-MM-DD` strings and parses
them with `strptime` before any computation; the embedding pre-applies
that parse, so `SessionData` holds `Option Nat` ordinals and recess
windows hold ordinal pairs.  `toOrdinal` below is the standard conversion
from a calendar date to its ordinal, used to embed the concrete 2026
dates appearing in the configuration.
-/

/-- Gregorian leap-year test. -/
def isLeapYear (y : Nat) : Bool :=
  (y % 4 == 0 && y % 100 != 0) || y % 400 == 0

/-- Cumulative day counts before each month (non-leap), as in the
standard civil-calendar/ordinal conversion. -/
def daysBeforeMonth (y m : Nat) : Nat :=
  let base := [0, 31, 59, 90, 120, 151, 181, 212, 243, 273, 304, 334].getD (m - 1) 0
  if 2 < m && isLeapYear y then base + 1 else base

/-- Proleptic-Gregorian ordinal of year-month-day, with 0001-01-01 = 1
(the same numbering as Python `date.toordinal`). -/
def toOrdinal (y m d : Nat) : Nat :=
  365 * (y - 1) + (y - 1) / 4 - (y - 1) / 100 + (y - 1) / 400 + daysBeforeMonth y m + d

/-- Weekday of an ordinal, 0 = Monday .. 6 = Sunday, matching Python
`date.weekday()`. -/
def weekday (d : Nat) : Nat := (d + 6) % 7

/-- Embeds `is_weekday`: true when the date is Monday through Friday. -/
def is_weekday (check_date : Nat) : Bool := weekday check_date < 5

/-- Embeds the `FEDERAL_HOLIDAYS_2026` list (11 fixed dates). -/
def FEDERAL_HOLIDAYS_2026 : List Nat :=
  [toOrdinal 2026 1 1, toOrdinal 2026 1 19, toOrdinal 2026 2 16,
   toOrdinal 2026 5 25, toOrdinal 2026 7 3, toOrdinal 2026 9 7,
   toOrdinal 2026 10 12, toOrdinal 2026 11 11, toOrdinal 2026 11 26,
   toOrdinal 2026 11 27, toOrdinal 2026 12 25]

/-- Embeds one entry of `LEGISLATIVE_SESSIONS_2026`: the session
dictionary with parsed optional endpoints and parsed recess windows. -/
structure SessionData where
  name : String
  start_date : Option Nat
  end_date : Option Nat
  description : String
  recess_periods : List (Nat × Nat)

/-- Embeds `is_in_recess`: true when the date falls inside some
inclusive `[recess.start, recess.end]` window. -/
def is_in_recess (check_date : Nat) (recess_periods : List (Nat × Nat)) : Bool :=
  recess_periods.any (fun p => decide (p.1 ≤ check_date ∧ check_date ≤ p.2))

/-- The `while current_date <= end_date` loop of `generate_session_days`,
with the iteration count made explicit: starting at `current_date` and
running `fuel` times (the loop body filters and steps one day). -/
def sessionDaysAux (recess_periods : List (Nat × Nat)) : Nat → Nat → List Nat
  | _, 0 => []
  | current_date, fuel + 1 =>
    if is_weekday current_date &&
        !(FEDERAL_HOLIDAYS_2026.contains current_date) &&
        !(is_in_recess current_date recess_periods) then
      current_date :: sessionDaysAux recess_periods (current_date + 1) fuel
    else
      sessionDaysAux recess_periods (current_date + 1) fuel

/-- Embeds `generate_session_days`: returns `[]` when either endpoint is
absent, otherwise walks every date of `[start_date, end_date]` keeping
weekdays that are neither holidays nor in recess.  The loop runs
`end_date + 1 - start_date` times (zero times when start > end, matching
the falsified `while` guard). -/
def generate_session_days (session_data : SessionData) : List Nat :=
  match session_data.start_date, session_data.end_date with
  | some start_date, some end_date =>
    sessionDaysAux session_data.recess_periods start_date (end_date + 1 - start_date)
  | _, _ => []

/-- The scan loop of `group_consecutive_days`, carrying the current
bounds of the current block; on exhaustion the pending block is appended. -/
def groupConsecAux (current_block_start current_block_end : Nat) :
    List Nat → List (Nat × Nat)
  | [] => [(current_block_start, current_block_end)]
  | d :: rest =>
    if d = current_block_end + 1 then
      groupConsecAux current_block_start d rest
    else
      (current_block_start, current_block_end) :: groupConsecAux d d rest

/-- Embeds `group_consecutive_days`: groups consecutive days into
inclusive blocks, empty input giving empty output. -/
def group_consecutive_days : List Nat → List (Nat × Nat)
  | [] => []
  | d :: rest => groupConsecAux d d rest

/-- Day-by-day expansion of a block from its start to its end
(inclusive), used to state the grouper roundtrip. -/
def expand_block (b : Nat × Nat) : List Nat :=
  (List.range (b.2 + 1 - b.1)).map (b.1 + ·)

/-- Embeds the `STATE_ABBREV` dictionary in its insertion order. -/
def STATE_ABBREV : List (String × String) :=
  [("Alabama", "AL"), ("Alaska", "AK"), ("Arizona", "AZ"), ("Arkansas", "AR"),
   ("California", "CA"), ("Colorado", "CO"), ("Connecticut", "CT"), ("Delaware", "DE"),
   ("Florida", "FL"), ("Georgia", "GA"), ("Hawaii", "HI"), ("Idaho", "ID"),
   ("Illinois", "IL"), ("Indiana", "IN"), ("Iowa", "IA"), ("Kansas", "KS"),
   ("Kentucky", "KY"), ("Louisiana", "LA"), ("Maine", "ME"), ("Maryland", "MD"),
   ("Massachusetts", "MA"), ("Michigan", "MI"), ("Minnesota", "MN"), ("Mississippi", "MS"),
   ("Missouri", "MO"), ("Montana", "MT"), ("Nebraska", "NE"), ("Nevada", "NV"),
   ("New Hampshire", "NH"), ("New Jersey", "NJ"), ("New Mexico", "NM"), ("New York", "NY"),
   ("North Carolina", "NC"), ("North Dakota", "ND"), ("Ohio", "OH"), ("Oklahoma", "OK"),
   ("Oregon", "OR"), ("Pennsylvania", "PA"), ("Rhode Island", "RI"), ("South Carolina", "SC"),
   ("South Dakota", "SD"), ("Tennessee", "TN"), ("Texas", "TX"), ("Utah", "UT"),
   ("Vermont", "VT"), ("Virginia", "VA"), ("Washington", "WA"), ("West Virginia", "WV"),
   ("Wisconsin", "WI"), ("Wyoming", "WY")]

/-- The Python `needle in hay` substring containment on strings, as the
contiguous-sublist test over character lists. -/
def str_in (needle : List Char) : List Char → Bool
  | [] => needle.isEmpty
  | c :: t => needle.isPrefixOf (c :: t) || str_in needle t

/-- The `for state, abbrev in STATE_ABBREV.items()` loop of
`get_state_abbrev`; the Python `state in state_name` substring test is the
infix test on the character lists. -/
def get_state_abbrevAux (state_name : String) : List (String × String) → String
  | [] => state_name
  | (state, abbr) :: rest =>
    if str_in state.data state_name.data then abbr
    else get_state_abbrevAux state_name rest

/-- Embeds `get_state_abbrev`: first substring match in table order, or
the name itself when nothing matches. -/
def get_state_abbrev (state_name : String) : String :=
  get_state_abbrevAux state_name STATE_ABBREV

/-- Embeds the icalendar `Event` fields that `create_session_block_event`
sets.  `dtstamp` is the wall-clock string passed in by the caller (the
only nondeterministic field in the source). -/
structure CalendarEvent where
  summary : String
  dtstart : Nat
  dtend : Nat
  description : String
  uid : String
  dtstamp : String
  transp : String

/-- Embeds `create_session_block_event`.  `num_days` is computed as an
integer exactly like the signed date subtraction in Python; the uid is the
f-string over (session id, the literal year 2026, block number) with the
fixed namespace suffix. -/
def create_session_block_event (session_id session_name : String)
    (block_start block_end : Nat) (block_num : Nat) (now : String) : CalendarEvent :=
  let ics_end_date := block_end + 1
  let num_days : Int := (block_end : Int) - (block_start : Int) + 1
  let state_abbrev := get_state_abbrev session_name
  { summary :=
      if num_days = 1 then s!"{state_abbrev} - In Session"
      else s!"{state_abbrev} - In Session ({num_days} days)"
    dtstart := block_start
    dtend := ics_end_date
    description := "Legislature in session"
    uid := s!"{session_id}-2026-block-{block_num}@legislative-calendar.beekeepergroup.com"
    dtstamp := now
    transp := "TRANSPARENT" }

/-- The events one resolved session contributes in `generate_calendar`:
`enumerate(session_blocks)` drives the formatter with the 0-based index
of the block within that session. -/
def session_events (session_id : String) (session_data : SessionData)
    (now : String) : List CalendarEvent :=
  ((group_consecutive_days (generate_session_days session_data)).enum).map
    (fun p => create_session_block_event session_id session_data.name p.2.1 p.2.2 p.1 now)

/-- Embeds the event-collecting loop of `generate_calendar`, with the
session table passed explicitly (the source reads the module-global
dictionary).  Returns the events appended in processing order together
with the warning lines printed for unknown session ids. -/
def generate_calendar_core (table : List (String × SessionData)) (now : String) :
    List String → List CalendarEvent × List String
  | [] => ([], [])
  | session_id :: rest =>
    match List.lookup session_id table with
    | none =>
      let r := generate_calendar_core table now rest
      (r.1, s!"Warning: Session {session_id} not found in data" :: r.2)
    | some session_data =>
      let r := generate_calendar_core table now rest
      (session_events session_id session_data now ++ r.1, r.2)

/-- The uid text as a function of the session identifier and the block
sequence number alone: the year token `2026` and the namespace suffix
are fixed by the f-string in `create_session_block_event`. -/
def uid_string (session_id : String) (block_num : Nat) : String :=
  session_id ++ "-2026-block-" ++ Nat.repr block_num ++
    "@legislative-calendar.beekeepergroup.com"

/-- Decimal digit characters of a natural number, most significant
first: a structurally transparent counterpart of the standard-library
decimal rendering, used to reason about the digits inside the uid. -/
def reprDigits (n : Nat) : List Char :=
  if _h : n < 10 then [Nat.digitChar n]
  else reprDigits (n / 10) ++ [Nat.digitChar (n % 10)]
decreasing_by exact Nat.div_lt_self (by omega) (by omega)

/-! ### Session Day Calculator -/

/-- Membership in the calculator loop: the days collected starting at
`c` for `fuel` iterations are exactly the qualifying days of the window
`[c, c + fuel)`. -/
theorem mem_sessionDaysAux (rp : List (Nat × Nat)) :
    ∀ (fuel c d : Nat),
      d ∈ sessionDaysAux rp c fuel ↔
        c ≤ d ∧ d < c + fuel ∧
          (is_weekday d && !(FEDERAL_HOLIDAYS_2026.contains d) &&
            !(is_in_recess d rp)) = true := by
  intro fuel
  induction fuel with
  | zero => intro c d; simp [sessionDaysAux]; omega
  | succ f ih =>
    intro c d
    rw [sessionDaysAux]
    by_cases hq : (is_weekday c && !(FEDERAL_HOLIDAYS_2026.contains c) &&
        !(is_in_recess c rp)) = true
    · rw [if_pos hq]
      simp only [List.mem_cons, ih (c + 1) d]
      constructor
      · rintro (rfl | ⟨h1, h2, h3⟩)
        · exact ⟨Nat.le_refl _, by omega, hq⟩
        · exact ⟨by omega, by omega, h3⟩
      · rintro ⟨h1, h2, h3⟩
        rcases Nat.eq_or_lt_of_le h1 with rfl | hlt
        · exact Or.inl rfl
        · exact Or.inr ⟨hlt, by omega, h3⟩
    · rw [if_neg hq]
      rw [ih (c + 1) d]
      constructor
      · rintro ⟨h1, h2, h3⟩
        exact ⟨by omega, by omega, h3⟩
      · rintro ⟨h1, h2, h3⟩
        refine ⟨?_, by omega, h3⟩
        rcases Nat.eq_or_lt_of_le h1 with rfl | hlt
        · exact absurd h3 hq
        · omega

/-- The calculator loop output is strictly increasing. -/
theorem sessionDaysAux_pairwise (rp : List (Nat × Nat)) :
    ∀ (fuel c : Nat), List.Pairwise (· < ·) (sessionDaysAux rp c fuel) := by
  intro fuel
  induction fuel with
  | zero => intro c; simp [sessionDaysAux]
  | succ f ih =>
    intro c
    rw [sessionDaysAux]
    split
    · refine List.Pairwise.cons ?_ (ih (c + 1))
      intro d hd
      have := (mem_sessionDaysAux rp f (c + 1) d).1 hd
      omega
    · exact ih (c + 1)

/-- A Bool-to-Prop bridge for list membership tests. -/
theorem contains_eq_false_iff (d : Nat) (l : List Nat) :
    (l.contains d = false) ↔ d ∉ l := by
  rw [← Bool.not_eq_true]; exact not_congr List.elem_iff

/-- The Bool filter used by the loop, as a proposition. -/
theorem qualifies_iff (d : Nat) (rp : List (Nat × Nat)) :
    (is_weekday d && !(FEDERAL_HOLIDAYS_2026.contains d) &&
      !(is_in_recess d rp)) = true ↔
      weekday d < 5 ∧ d ∉ FEDERAL_HOLIDAYS_2026 ∧
        ∀ r ∈ rp, ¬(r.1 ≤ d ∧ d ≤ r.2) := by
  simp only [Bool.and_eq_true, Bool.not_eq_true', is_weekday, is_in_recess,
    decide_eq_true_eq, contains_eq_false_iff, decide_eq_false_iff_not,
    List.any_eq_false, and_assoc]

/-- C1: for a session range with start ≤ end, `generate_session_days`
returns exactly the dates of `[start, end]` whose weekday is Monday
through Friday (weekday < 5), that are not federal holidays, and that
lie in no recess window; the output is strictly increasing (hence
duplicate-free and chronological). -/
theorem generate_session_days_correct (sd : SessionData) (st en : Nat)
    (hst : sd.start_date = some st) (hen : sd.end_date = some en)
    (hle : st ≤ en) :
    (∀ d, d ∈ generate_session_days sd ↔
      st ≤ d ∧ d ≤ en ∧ weekday d < 5 ∧ d ∉ FEDERAL_HOLIDAYS_2026 ∧
        ∀ r ∈ sd.recess_periods, ¬(r.1 ≤ d ∧ d ≤ r.2)) ∧
    List.Pairwise (· < ·) (generate_session_days sd) := by
  unfold generate_session_days
  rw [hst, hen]
  constructor
  · intro d
    rw [mem_sessionDaysAux, qualifies_iff]
    constructor
    · rintro ⟨h1, h2, h3⟩
      exact ⟨h1, by omega, h3⟩
    · rintro ⟨h1, h2, h3⟩
      exact ⟨h1, by omega, h3⟩
  · exact sessionDaysAux_pairwise _ _ _

/-- Witness for C1: a concrete week, Monday Jan 5 through Friday Jan 9
2026, with no recess windows. -/
theorem generate_session_days_correct_witness :
    (∀ d, d ∈ generate_session_days
        ⟨"X", some (toOrdinal 2026 1 5), some (toOrdinal 2026 1 9), "", []⟩ ↔
      toOrdinal 2026 1 5 ≤ d ∧ d ≤ toOrdinal 2026 1 9 ∧ weekday d < 5 ∧
        d ∉ FEDERAL_HOLIDAYS_2026 ∧
        ∀ r ∈ ([] : List (Nat × Nat)), ¬(r.1 ≤ d ∧ d ≤ r.2)) ∧
    List.Pairwise (· < ·) (generate_session_days
      ⟨"X", some (toOrdinal 2026 1 5), some (toOrdinal 2026 1 9), "", []⟩) :=
  generate_session_days_correct
    ⟨"X", some (toOrdinal 2026 1 5), some (toOrdinal 2026 1 9), "", []⟩
    (toOrdinal 2026 1 5) (toOrdinal 2026 1 9) rfl rfl (by decide)

/-- C10: the calculator is total beyond its precondition: a session
whose start is strictly after its end yields the empty list (the while
guard is immediately false), and a session missing either endpoint
yields the empty list. -/
theorem generate_session_days_total (sd : SessionData) :
    (∀ st en, sd.start_date = some st → sd.end_date = some en → en < st →
      generate_session_days sd = []) ∧
    (sd.start_date = none ∨ sd.end_date = none →
      generate_session_days sd = []) := by
  constructor
  · intro st en hst hen hlt
    have h0 : en + 1 - st = 0 := by omega
    simp only [generate_session_days, hst, hen, h0, sessionDaysAux]
  · intro h
    rcases h with h | h
    · simp only [generate_session_days, h]
    · cases hs : sd.start_date <;> simp only [generate_session_days, h, hs]

/-- Witness for C10: a reversed range and a half-absent range both give
the empty list. -/
theorem generate_session_days_total_witness :
    generate_session_days ⟨"X", some 9, some 5, "", []⟩ = [] ∧
    generate_session_days ⟨"Y", some 9, none, "", []⟩ = [] :=
  ⟨(generate_session_days_total ⟨"X", some 9, some 5, "", []⟩).1 9 5 rfl rfl
      (by decide),
   (generate_session_days_total ⟨"Y", some 9, none, "", []⟩).2 (Or.inr rfl)⟩

/-! ### Block Grouper -/

/-- Expanding a one-day block gives the single day. -/
theorem expand_block_single (x : Nat) : expand_block (x, x) = [x] := by
  have h1 : List.range 1 = [0] := rfl
  simp [expand_block, h1]

/-- Expanding a block extended by one day appends that day. -/
theorem expand_block_extend (s e : Nat) (h : s ≤ e + 1) :
    expand_block (s, e + 1) = expand_block (s, e) ++ [e + 1] := by
  unfold expand_block
  have h1 : e + 1 + 1 - s = (e + 1 - s) + 1 := by omega
  rw [h1, List.range_succ, List.map_append]
  simp only [List.map_cons, List.map_nil]
  have h2 : s + (e + 1 - s) = e + 1 := by omega
  rw [h2]

/-- Flattening the expanded blocks of the scan loop reproduces the
pending block followed by the remaining input, for any remaining
input. -/
theorem groupConsecAux_flatten :
    ∀ (xs : List Nat) (s e : Nat), s ≤ e →
      (groupConsecAux s e xs).flatMap expand_block = expand_block (s, e) ++ xs := by
  intro xs
  induction xs with
  | nil =>
    intro s e _
    simp [groupConsecAux]
  | cons x rest ih =>
    intro s e hse
    rw [groupConsecAux]
    by_cases hx : x = e + 1
    · rw [if_pos hx]
      rw [ih s x (by omega)]
      subst hx
      rw [expand_block_extend s e (by omega), List.append_assoc]
      rfl
    · rw [if_neg hx]
      rw [List.flatMap_cons, ih x x (Nat.le_refl x), expand_block_single]
      rfl

/-- C2: for a chronologically ordered duplicate-free input (strictly
increasing list), expanding every block of `group_consecutive_days` day
by day and concatenating in output order reproduces exactly the input
sequence; empty input yields empty output. -/
theorem group_consecutive_days_roundtrip (days : List Nat)
    (h : List.Pairwise (· < ·) days) :
    (group_consecutive_days days).flatMap expand_block = days := by
  cases days with
  | nil => rfl
  | cons d rest =>
    rw [group_consecutive_days, groupConsecAux_flatten rest d d (Nat.le_refl d),
      expand_block_single]
    rfl

/-- Witness for C2: a week block followed by an isolated day. -/
theorem group_consecutive_days_roundtrip_witness :
    (group_consecutive_days [5, 6, 7, 10]).flatMap expand_block = [5, 6, 7, 10] :=
  group_consecutive_days_roundtrip [5, 6, 7, 10] (by decide)

/-- C3: the scan extends the current block exactly when the next date is
one calendar day after the end of the current block, and otherwise emits the
pending block and starts a new one; a single isolated day forms a 1-day
block, and the Friday Jan 9 2026 / Monday Jan 12 2026 pair (weekend
dates absent from the input) yields two separate one-day blocks. -/
theorem group_consecutive_days_boundary :
    (∀ s e x xs, x = e + 1 →
      groupConsecAux s e (x :: xs) = groupConsecAux s x xs) ∧
    (∀ s e x xs, x ≠ e + 1 →
      groupConsecAux s e (x :: xs) = (s, e) :: groupConsecAux x x xs) ∧
    (∀ d, group_consecutive_days [d] = [(d, d)]) ∧
    group_consecutive_days [toOrdinal 2026 1 9, toOrdinal 2026 1 12] =
      [(toOrdinal 2026 1 9, toOrdinal 2026 1 9),
       (toOrdinal 2026 1 12, toOrdinal 2026 1 12)] ∧
    weekday (toOrdinal 2026 1 9) = 4 ∧ weekday (toOrdinal 2026 1 12) = 0 := by
  refine ⟨?_, ?_, ?_, ?_, by decide, by decide⟩
  · intro s e x xs hx
    rw [groupConsecAux, if_pos hx]
  · intro s e x xs hx
    rw [groupConsecAux, if_neg hx]
  · intro d; rfl
  · decide

/-- Witness for C3: the step equations applied at concrete inputs. -/
theorem group_consecutive_days_boundary_witness :
    groupConsecAux 1 2 [3, 7] = groupConsecAux 1 3 [7] ∧
    groupConsecAux 1 2 [5] = (1, 2) :: groupConsecAux 5 5 [] :=
  ⟨group_consecutive_days_boundary.1 1 2 3 [7] rfl,
   group_consecutive_days_boundary.2.1 1 2 5 [] (by decide)⟩

/-! ### Event Formatter -/

/-- C4: the formatter titles a one-day block (block_start = block_end)
with no day count, and a multi-day block with the inclusive day count
(block_end - block_start) + 1, the code being the resolved jurisdiction
code. -/
theorem create_session_block_event_title (session_id session_name : String)
    (block_start block_end block_num : Nat) (now : String)
    (h : block_start ≤ block_end) :
    (block_start = block_end →
      (create_session_block_event session_id session_name block_start block_end
        block_num now).summary =
        get_state_abbrev session_name ++ " - In Session") ∧
    (block_start ≠ block_end →
      (create_session_block_event session_id session_name block_start block_end
        block_num now).summary =
        get_state_abbrev session_name ++ " - In Session (" ++
          toString (block_end - block_start + 1) ++ " days)") := by
  constructor
  · intro he
    subst he
    have hc : (block_start : Int) - (block_start : Int) + 1 = 1 := by omega
    simp only [create_session_block_event, hc, if_pos]
    rfl
  · intro hne
    have hlt : block_start < block_end := by omega
    have hc : ¬((block_end : Int) - (block_start : Int) + 1 = 1) := by omega
    simp only [create_session_block_event, hc, if_false, if_neg, not_false_eq_true]
    have hcast : (block_end : Int) - (block_start : Int) + 1 =
        ((block_end - block_start + 1 : Nat) : Int) := by omega
    rw [hcast]
    rfl

/-- Witness for C4: a one-day block and a five-day block. -/
theorem create_session_block_event_title_witness :
    ((7 : Nat) = 7 →
      (create_session_block_event "Alabama" "Alabama Legislature" 7 7 0
        "now").summary = get_state_abbrev "Alabama Legislature" ++ " - In Session") ∧
    ((7 : Nat) ≠ 11 →
      (create_session_block_event "Alabama" "Alabama Legislature" 7 11 0
        "now").summary = get_state_abbrev "Alabama Legislature" ++
          " - In Session (" ++ toString (11 - 7 + 1) ++ " days)") :=
  ⟨(create_session_block_event_title "Alabama" "Alabama Legislature" 7 7 0 "now"
      (by decide)).1,
   (create_session_block_event_title "Alabama" "Alabama Legislature" 7 11 0 "now"
      (by decide)).2⟩

/-- C5: the produced event starts at the first day of the block
(inclusive) and ends one calendar day past the last day of the block
(exclusive-end
convention). -/
theorem create_session_block_event_dates (session_id session_name : String)
    (block_start block_end block_num : Nat) (now : String) :
    (create_session_block_event session_id session_name block_start block_end
      block_num now).dtstart = block_start ∧
    (create_session_block_event session_id session_name block_start block_end
      block_num now).dtend = block_end + 1 :=
  ⟨rfl, rfl⟩

/-! ### Decimal rendering of block numbers -/

/-- Unfolding equation of `reprDigits` without the unused branch
hypothesis. -/
theorem reprDigits_eq (n : Nat) :
    reprDigits n = if n < 10 then [Nat.digitChar n]
      else reprDigits (n / 10) ++ [Nat.digitChar (n % 10)] := by
  rw [reprDigits, dite_eq_ite]

/-- The fueled rendering loop of the standard library agrees with
`reprDigits` whenever the fuel covers the value. -/
theorem toDigitsCore_eq_reprDigits :
    ∀ n f (acc : List Char), n ≤ f →
      Nat.toDigitsCore 10 (f + 1) n acc = reprDigits n ++ acc := by
  intro n
  induction n using Nat.strong_induction_on with
  | _ n ih =>
    intro f acc hnf
    show (if n / 10 = 0 then Nat.digitChar (n % 10) :: acc
      else Nat.toDigitsCore 10 f (n / 10) (Nat.digitChar (n % 10) :: acc)) =
      reprDigits n ++ acc
    by_cases hz : n / 10 = 0
    · have hn : n < 10 := by omega
      rw [if_pos hz, reprDigits_eq, if_pos hn, Nat.mod_eq_of_lt hn]
      rfl
    · have hn : ¬(n < 10) := by omega
      have hdiv : n / 10 < n := Nat.div_lt_self (by omega) (by omega)
      have hf : f = (f - 1) + 1 := by omega
      rw [if_neg hz, hf, ih (n / 10) hdiv (f - 1) _ (by omega),
        reprDigits_eq n, if_neg hn, List.append_assoc]
      rfl

/-- The characters of the standard decimal rendering are exactly
`reprDigits`. -/
theorem natRepr_data (n : Nat) : (Nat.repr n).data = reprDigits n := by
  have h : Nat.repr n = (Nat.toDigitsCore 10 (n + 1) n []).asString := rfl
  rw [h, toDigitsCore_eq_reprDigits n n [] (Nat.le_refl n), List.append_nil]
  rfl

/-- Every character of `reprDigits` is a decimal digit. -/
theorem reprDigits_isDigit :
    ∀ n, ∀ c ∈ reprDigits n, c.isDigit = true := by
  have hd : ∀ m, m < 10 → (Nat.digitChar m).isDigit = true := by decide
  intro n
  induction n using Nat.strong_induction_on with
  | _ n ih =>
    intro c hc
    rw [reprDigits_eq] at hc
    by_cases hn : n < 10
    · rw [if_pos hn] at hc
      rcases List.mem_singleton.1 hc with rfl
      exact hd n hn
    · rw [if_neg hn] at hc
      rcases List.mem_append.1 hc with hc | hc
      · exact ih (n / 10) (Nat.div_lt_self (by omega) (by omega)) c hc
      · rcases List.mem_singleton.1 hc with rfl
        exact hd (n % 10) (Nat.mod_lt n (by omega))

/-- The digit list of a number is never empty. -/
theorem reprDigits_ne_nil (n : Nat) : reprDigits n ≠ [] := by
  rw [reprDigits_eq]
  split
  · simp
  · simp

/-- Distinct numbers have distinct digit lists. -/
theorem reprDigits_inj :
    ∀ m n, reprDigits m = reprDigits n → m = n := by
  have hdc : ∀ a, a < 10 → ∀ b, b < 10 → Nat.digitChar a = Nat.digitChar b → a = b := by
    decide
  intro m
  induction m using Nat.strong_induction_on with
  | _ m ih =>
    intro n h
    rw [reprDigits_eq m, reprDigits_eq n] at h
    by_cases hm : m < 10 <;> by_cases hn : n < 10
    · rw [if_pos hm, if_pos hn] at h
      exact hdc m hm n hn (List.singleton_injective h)
    · rw [if_pos hm, if_neg hn] at h
      have hlen := congrArg List.length h
      rw [List.length_append] at hlen
      simp only [List.length_singleton] at hlen
      have h0 : (reprDigits (n / 10)).length = 0 := by omega
      exact absurd (List.length_eq_zero.1 h0) (reprDigits_ne_nil (n / 10))
    · rw [if_neg hm, if_pos hn] at h
      have hlen := congrArg List.length h
      rw [List.length_append] at hlen
      simp only [List.length_singleton] at hlen
      have h0 : (reprDigits (m / 10)).length = 0 := by omega
      exact absurd (List.length_eq_zero.1 h0) (reprDigits_ne_nil (m / 10))
    · rw [if_neg hm, if_neg hn] at h
      have hparts := List.append_inj' h rfl
      have h1 : m / 10 = n / 10 :=
        ih (m / 10) (Nat.div_lt_self (by omega) (by omega)) (n / 10) hparts.1
      have h2 : m % 10 = n % 10 :=
        hdc (m % 10) (Nat.mod_lt m (by omega)) (n % 10) (Nat.mod_lt n (by omega))
          (List.singleton_injective hparts.2)
      omega

/-- A run of digit characters followed by a non-digit-headed remainder
splits uniquely. -/
theorem digitRun_append_inj :
    ∀ (p1 p2 r1 r2 : List Char),
      (∀ c ∈ p1, c.isDigit = true) → (∀ c ∈ p2, c.isDigit = true) →
      (∀ c, r1.head? = some c → c.isDigit = false) →
      (∀ c, r2.head? = some c → c.isDigit = false) →
      p1 ++ r1 = p2 ++ r2 → p1 = p2 ∧ r1 = r2 := by
  intro p1
  induction p1 with
  | nil =>
    intro p2 r1 r2 h1 h2 hr1 hr2 heq
    cases p2 with
    | nil => exact ⟨rfl, heq⟩
    | cons c t =>
      simp only [List.nil_append, List.cons_append] at heq
      have hc := hr1 c (by rw [heq]; rfl)
      have hd := h2 c (List.mem_cons_self c t)
      rw [hd] at hc
      cases hc
  | cons a t ih =>
    intro p2 r1 r2 h1 h2 hr1 hr2 heq
    cases p2 with
    | nil =>
      simp only [List.cons_append, List.nil_append] at heq
      have hc := hr2 a (by rw [← heq]; rfl)
      have hd := h1 a (List.mem_cons_self a t)
      rw [hd] at hc
      cases hc
    | cons b t2 =>
      simp only [List.cons_append, List.cons.injEq] at heq
      obtain ⟨rfl, heq2⟩ := heq
      have hrec := ih t2 r1 r2 (fun c hc => h1 c (List.mem_cons_of_mem a hc))
        (fun c hc => h2 c (List.mem_cons_of_mem a hc)) hr1 hr2 heq2
      exact ⟨by rw [hrec.1], hrec.2⟩

/-- The uid text determines the session identifier and the block
number. -/
theorem uid_string_inj (sid1 sid2 : String) (n1 n2 : Nat)
    (h : uid_string sid1 n1 = uid_string sid2 n2) : sid1 = sid2 ∧ n1 = n2 := by
  have hdata := congrArg String.data h
  simp only [uid_string, String.data_append] at hdata
  have h2 : sid1.data ++ "-2026-block-".data ++ (Nat.repr n1).data =
      sid2.data ++ "-2026-block-".data ++ (Nat.repr n2).data :=
    List.append_cancel_right hdata
  have h3 := congrArg List.reverse h2
  simp only [List.reverse_append] at h3
  have hsplit := digitRun_append_inj ((Nat.repr n1).data.reverse)
    ((Nat.repr n2).data.reverse)
    ("-2026-block-".data.reverse ++ sid1.data.reverse)
    ("-2026-block-".data.reverse ++ sid2.data.reverse)
    (fun c hc => by
      rw [natRepr_data] at hc
      exact reprDigits_isDigit n1 c (List.mem_reverse.1 hc))
    (fun c hc => by
      rw [natRepr_data] at hc
      exact reprDigits_isDigit n2 c (List.mem_reverse.1 hc))
    (fun c hc => by
      rw [show ("-2026-block-".data.reverse ++ sid1.data.reverse).head? = some '-'
        from rfl] at hc
      rcases Option.some_injective _ hc with rfl
      rfl)
    (fun c hc => by
      rw [show ("-2026-block-".data.reverse ++ sid2.data.reverse).head? = some '-'
        from rfl] at hc
      rcases Option.some_injective _ hc with rfl
      rfl)
    h3
  constructor
  · have := List.append_cancel_left hsplit.2
    have hsid := List.reverse_injective this
    exact String.ext hsid
  · have := List.reverse_injective hsplit.1
    rw [natRepr_data, natRepr_data] at this
    exact reprDigits_inj n1 n2 this

/-! ### Calendar Assembler -/

/-- The uid field of a formatted event is `uid_string` of the session id
and the block number, independent of every other argument. -/
theorem create_session_block_event_uid_eq (session_id session_name : String)
    (block_start block_end block_num : Nat) (now : String) :
    (create_session_block_event session_id session_name block_start block_end
      block_num now).uid = uid_string session_id block_num := rfl

/-- Every event a session contributes carries a uid of that session. -/
theorem session_events_uid_shape (sid : String) (sd : SessionData) (now : String) :
    ∀ e ∈ session_events sid sd now, ∃ n, e.uid = uid_string sid n := by
  intro e he
  obtain ⟨p, _hp, rfl⟩ := List.mem_map.1 he
  exact ⟨p.1, rfl⟩

/-- Within one session the event uids are pairwise distinct: the block
numbers are the distinct positions produced by `enumerate`. -/
theorem session_events_uids_nodup (sid : String) (sd : SessionData) (now : String) :
    ((session_events sid sd now).map (fun ev => ev.uid)).Nodup := by
  unfold session_events
  rw [List.map_map]
  have hcomp :
      ((fun ev : CalendarEvent => ev.uid) ∘
        (fun p : Nat × (Nat × Nat) =>
          create_session_block_event sid sd.name p.2.1 p.2.2 p.1 now)) =
      fun p : Nat × (Nat × Nat) => uid_string sid p.1 := rfl
  rw [hcomp]
  have hsplit :
      (List.enum (group_consecutive_days (generate_session_days sd))).map
        (fun p => uid_string sid p.1) =
      ((List.enum (group_consecutive_days (generate_session_days sd))).map
        Prod.fst).map (uid_string sid) := by
    rw [List.map_map]
    rfl
  rw [hsplit, List.enum_map_fst]
  refine List.Nodup.map ?_ (List.nodup_range _)
  intro a b hab
  exact (uid_string_inj sid sid a b hab).2

/-- Every event in the assembled document belongs to one of the
requested session identifiers. -/
theorem generate_calendar_uid_shape (table : List (String × SessionData))
    (now : String) :
    ∀ (ids : List String) (e : CalendarEvent),
      e ∈ (generate_calendar_core table now ids).1 →
      ∃ sid, sid ∈ ids ∧ ∃ n, e.uid = uid_string sid n := by
  intro ids
  induction ids with
  | nil => intro e he; simp [generate_calendar_core] at he
  | cons sid rest ih =>
    intro e he
    cases hl : List.lookup sid table with
    | none =>
      simp only [generate_calendar_core, hl] at he
      obtain ⟨s, hs, hn⟩ := ih e he
      exact ⟨s, List.mem_cons_of_mem sid hs, hn⟩
    | some sd =>
      simp only [generate_calendar_core, hl] at he
      rcases List.mem_append.1 he with he | he
      · obtain ⟨n, hn⟩ := session_events_uid_shape sid sd now e he
        exact ⟨sid, List.mem_cons_self sid rest, n, hn⟩
      · obtain ⟨s, hs, hn⟩ := ih e he
        exact ⟨s, List.mem_cons_of_mem sid hs, hn⟩

/-- C6: the event identifier is a deterministic function of the session
identifier, the fixed year token and the block sequence number together
with the fixed namespace suffix (independent of name, bounds and
timestamp); identical formatter inputs give identical identifiers and
titles; and a document assembled from pairwise-distinct requested
session identifiers has pairwise-distinct event identifiers. -/
theorem create_session_block_event_uid_deterministic :
    (∀ (session_id : String) (block_num : Nat) (name1 name2 : String)
        (s1 e1 s2 e2 : Nat) (t1 t2 : String),
      (create_session_block_event session_id name1 s1 e1 block_num t1).uid =
        uid_string session_id block_num ∧
      (create_session_block_event session_id name2 s2 e2 block_num t2).uid =
        (create_session_block_event session_id name1 s1 e1 block_num t1).uid) ∧
    (∀ (session_id name : String) (s e n : Nat) (t1 t2 : String),
      (create_session_block_event session_id name s e n t1).uid =
        (create_session_block_event session_id name s e n t2).uid ∧
      (create_session_block_event session_id name s e n t1).summary =
        (create_session_block_event session_id name s e n t2).summary) ∧
    (∀ (table : List (String × SessionData)) (now : String) (ids : List String),
      ids.Nodup →
      (((generate_calendar_core table now ids).1).map (fun ev => ev.uid)).Nodup) := by
  refine ⟨fun sid n name1 name2 s1 e1 s2 e2 t1 t2 => ⟨rfl, rfl⟩,
    fun sid name s e n t1 t2 => ⟨rfl, rfl⟩, ?_⟩
  intro table now ids
  induction ids with
  | nil => intro _; simp [generate_calendar_core]
  | cons sid rest ih =>
    intro hnd
    cases hl : List.lookup sid table with
    | none =>
      simp only [generate_calendar_core, hl]
      exact ih (List.Nodup.of_cons hnd)
    | some sd =>
      simp only [generate_calendar_core, hl, List.map_append]
      refine List.Nodup.append (session_events_uids_nodup sid sd now)
        (ih (List.Nodup.of_cons hnd)) ?_
      intro u hu1 hu2
      obtain ⟨e1, he1, hue1⟩ := List.mem_map.1 hu1
      obtain ⟨e2, he2, hue2⟩ := List.mem_map.1 hu2
      obtain ⟨n1, hn1⟩ := session_events_uid_shape sid sd now e1 he1
      obtain ⟨sid2, hsid2, n2, hn2⟩ := generate_calendar_uid_shape table now rest e2 he2
      have h12 : uid_string sid n1 = uid_string sid2 n2 := by
        rw [← hn1, ← hn2, hue1, hue2]
      have hss := (uid_string_inj sid sid2 n1 n2 h12).1
      subst hss
      exact (List.nodup_cons.1 hnd).1 hsid2

/-- Witness for C6: a two-session document with distinct identifiers has
pairwise-distinct event uids. -/
theorem create_session_block_event_uid_deterministic_witness :
    (((generate_calendar_core
        [("A", ⟨"Alpha Legislature", some 5, some 6, "", []⟩),
         ("B", ⟨"Beta Legislature", some 5, some 6, "", []⟩)] "now"
        ["A", "B"]).1).map (fun ev => ev.uid)).Nodup :=
  create_session_block_event_uid_deterministic.2.2
    [("A", ⟨"Alpha Legislature", some 5, some 6, "", []⟩),
     ("B", ⟨"Beta Legislature", some 5, some 6, "", []⟩)] "now" ["A", "B"]
    (by decide)

/-- C7: identifiers absent from the session table are skipped with a
recorded warning and contribute no events, while every known identifier
still contributes: the warning list is exactly one warning per unknown
identifier in order, and the event list equals that of the input with
the unknown identifiers removed. -/
theorem generate_calendar_skips_unknown (table : List (String × SessionData))
    (now : String) (ids : List String) :
    (generate_calendar_core table now ids).2 =
      (ids.filter (fun sid => (List.lookup sid table).isNone)).map
        (fun sid => s!"Warning: Session {sid} not found in data") ∧
    (generate_calendar_core table now ids).1 =
      (generate_calendar_core table now
        (ids.filter (fun sid => (List.lookup sid table).isSome))).1 := by
  induction ids with
  | nil => exact ⟨rfl, rfl⟩
  | cons sid rest ih =>
    cases hl : List.lookup sid table with
    | none =>
      constructor
      · simp [generate_calendar_core, hl, List.filter_cons, ih.1]
      · simp [generate_calendar_core, hl, List.filter_cons, ih.2]
    | some sd =>
      constructor
      · simp [generate_calendar_core, hl, List.filter_cons, ih.1]
      · simp [generate_calendar_core, hl, List.filter_cons, ih.2]

/-- C8: a session with both endpoints absent is a defined state, not an
error: zero session days, zero blocks, zero events from the assembler. -/
theorem no_session_zero_everything (sd : SessionData)
    (h1 : sd.start_date = none) (_h2 : sd.end_date = none) :
    generate_session_days sd = [] ∧
    group_consecutive_days (generate_session_days sd) = [] ∧
    ∀ (session_id now : String), session_events session_id sd now = [] := by
  have hdays : generate_session_days sd = [] := by
    simp only [generate_session_days, h1]
  refine ⟨hdays, by rw [hdays]; rfl, ?_⟩
  intro sid now
  unfold session_events
  rw [hdays]
  rfl

/-- Witness for C8: the Montana-style entry with no 2026 session. -/
theorem no_session_zero_everything_witness :
    generate_session_days
      ⟨"Montana Legislature", none, none,
        "No regular session in 2026 (meets odd years only)", []⟩ = [] ∧
    group_consecutive_days (generate_session_days
      ⟨"Montana Legislature", none, none,
        "No regular session in 2026 (meets odd years only)", []⟩) = [] ∧
    ∀ (session_id now : String), session_events session_id
      ⟨"Montana Legislature", none, none,
        "No regular session in 2026 (meets odd years only)", []⟩ now = [] :=
  no_session_zero_everything
    ⟨"Montana Legislature", none, none,
      "No regular session in 2026 (meets odd years only)", []⟩ rfl rfl

/-! ### Name-to-code lookup -/

/-- The Python substring test agrees with contiguous-sublist containment. -/
theorem str_in_substring (needle : List Char) :
    ∀ hay, str_in needle hay = true ↔ needle <:+: hay := by
  intro hay
  induction hay with
  | nil =>
    simp [str_in, List.isEmpty_iff, List.infix_nil]
  | cons c t ih =>
    rw [str_in, Bool.or_eq_true, ih, List.isPrefixOf_iff_prefix,
      List.infix_cons_iff]

/-- The lookup loop returns the first matching entry, as `find?`. -/
theorem get_state_abbrevAux_eq_find (state_name : String) :
    ∀ tbl, get_state_abbrevAux state_name tbl =
      (match tbl.find? (fun p => str_in p.1.data state_name.data) with
       | some p => p.2
       | none => state_name) := by
  intro tbl
  induction tbl with
  | nil => rfl
  | cons p rest ih =>
    obtain ⟨state, abbr⟩ := p
    by_cases h : str_in state.data state_name.data
    · simp [get_state_abbrevAux, h, List.find?_cons_of_pos]
    · rw [get_state_abbrevAux, if_neg h, ih, List.find?_cons_of_neg rest h]

/-- C9: the name-to-code lookup returns the abbreviation of the first
table entry, in table order, whose key is a substring of the display
name, and the display name itself when no key is a substring; the first
match wins even when it is not the longest (resolving the West Virginia
display name to the Virginia code VA). -/
theorem get_state_abbrev_first_match (state_name : String) :
    (∀ needle hay : List Char, str_in needle hay = true ↔ needle <:+: hay) ∧
    get_state_abbrev state_name =
      (match STATE_ABBREV.find? (fun p => str_in p.1.data state_name.data) with
       | some p => p.2
       | none => state_name) ∧
    get_state_abbrev "West Virginia Legislature" = "VA" := by
  refine ⟨fun needle hay => str_in_substring needle hay,
    get_state_abbrevAux_eq_find state_name STATE_ABBREV, ?_⟩
  decide
